import Mathlib

/-!
# TCP sequence server: sequence arithmetic and command dispatch

A shallow embedding of `sequence.hpp`, `sequence.cpp` and the command path of
`server.cpp` (`client_id`, `generate_sequence`, `add_subsequence`,
`process_client_input`, one iteration of `client_handler`).

* `std::string` / `std::string_view` are lists of characters.
* `uint64_t` values are naturals, reduced `% 2 ^ 64` where the source can wrap.
* `std::map<uint, SubSequence>` is an association list kept in ascending key
  order by `map_assign`; `std::unordered_map<uint64_t, Sequence>` is an
  association list searched by key.
* The socket and the `running_` flag are an environment `Env` that answers each
  `send` call and each `running_.load()`; the endless export loop takes fuel.
-/

/-- Contents of a `std::string` or `std::string_view`. -/
abbrev Str := List Char

/-- Largest `uint64_t`, `std::numeric_limits<uint64_t>::max()`. -/
def UINT64_MAX : Nat := 2 ^ 64 - 1

/-- Largest `int`. -/
def INT_MAX : Int := 2 ^ 31 - 1

/-- Smallest `int`. -/
def INT_MIN : Int := -(2 ^ 31)

/-- Decimal text of an unsigned value, `std::to_string`. -/
def to_string (n : Nat) : Str := Nat.toDigits 10 n

/-- Decimal text of a signed value, `std::to_string(int)`. -/
def to_string_int (z : Int) : Str :=
  if z < 0 then '-' :: to_string z.natAbs else to_string z.toNat

/-! ## sequence.hpp -/

/-- Fields of `class SubSequence`. -/
structure SubSequence where
  start_ : Nat
  step_ : Nat
  counter_ : Nat
deriving DecidableEq, Repr

namespace SubSequence

/-- Constructor `SubSequence(uint start, uint step)`: the counter begins at `start`. -/
def new (start step : Nat) : SubSequence :=
  { start_ := start, step_ := step, counter_ := start }

/-- Method `SubSequence::update`. -/
def update (s : SubSequence) : SubSequence :=
  let threshold := UINT64_MAX - s.counter_
  if threshold < s.step_ then
    { s with counter_ := s.start_ }
  else
    { s with counter_ := (s.counter_ + s.step_) % 2 ^ 64 }

/-- Method `SubSequence::get_counter`. -/
def get_counter (s : SubSequence) : Nat := s.counter_

end SubSequence

/-- Insertion into `std::map<uint, SubSequence>` through `operator[]` followed by
assignment: the entry for `k` is replaced when present and otherwise placed so that
the keys stay in ascending order. -/
def map_assign (k : Nat) (v : SubSequence) :
    List (Nat × SubSequence) → List (Nat × SubSequence)
  | [] => [(k, v)]
  | (k', v') :: rest =>
    if k < k' then (k, v) :: (k', v') :: rest
    else if k = k' then (k, v) :: rest
    else (k', v') :: map_assign k v rest

/-- Lookup in `std::map<uint, SubSequence>`. -/
def map_find (k : Nat) : List (Nat × SubSequence) → Option SubSequence
  | [] => none
  | (k', v') :: rest => if k = k' then some v' else map_find k rest

/-- Fields of `class Sequence`: the entries of `subsequnces_` in iteration order. -/
structure Sequence where
  subsequnces_ : List (Nat × SubSequence) := []
deriving DecidableEq, Repr

namespace Sequence

/-- Method `Sequence::add_subsequence`. -/
def add_subsequence (s : Sequence) (sub_idx start step : Nat) : Sequence :=
  if start = 0 ∨ step = 0 then
    s
  else
    { subsequnces_ := map_assign sub_idx (SubSequence.new start step) s.subsequnces_ }

/-- Method `Sequence::to_str`. -/
def to_str (s : Sequence) : Str :=
  let res := s.subsequnces_.foldl
    (fun (res : Str) elem => res ++ (to_string elem.2.get_counter ++ [' '])) []
  if res ≠ [] then res.dropLast else res

/-- Method `Sequence::update`. -/
def update (s : Sequence) : Sequence :=
  { subsequnces_ := s.subsequnces_.map (fun elem => (elem.1, elem.2.update)) }

/-- The `SubSequence` stored at a slot, when one is. -/
def slot (s : Sequence) (k : Nat) : Option SubSequence := map_find k s.subsequnces_

/-- Values of `Sequence` that the class interface can produce: the default-constructed
object, and the results of `add_subsequence` and `update`. -/
inductive Reachable : Sequence → Prop
  | empty : Reachable {}
  | add (s : Sequence) (sub_idx start step : Nat) :
      Reachable s → Reachable (s.add_subsequence sub_idx start step)
  | update (s : Sequence) : Reachable s → Reachable s.update

/-- The text the specification asks of `render()`: the populated slot indices in
ascending order, each replaced by the decimal value of its counter, joined by single
spaces. -/
def render_spec (s : Sequence) : Str :=
  let slots := ((s.subsequnces_.map Prod.fst).dedup).insertionSort (· ≤ ·)
  List.intercalate [' ']
    (slots.filterMap (fun k => (s.slot k).map (fun c => to_string c.get_counter)))

end Sequence

/-! ## sequence.cpp -/

/-- Fields of `class SequenceStorage`: the entries of `seq_table_`. -/
structure SequenceStorage where
  seq_table_ : List (Nat × Sequence) := []
deriving DecidableEq, Repr

/-- Access `seq_table_[key]` followed by a change of the referenced `Sequence`;
`operator[]` default-constructs the entry when the key is absent. -/
def table_modify (key : Nat) (f : Sequence → Sequence) :
    List (Nat × Sequence) → List (Nat × Sequence)
  | [] => [(key, f {})]
  | (k, s) :: rest =>
    if k = key then (k, f s) :: rest else (k, s) :: table_modify key f rest

/-- Call `seq_table_.find(key)`. -/
def table_find (key : Nat) : List (Nat × Sequence) → Option Sequence
  | [] => none
  | (k, s) :: rest => if k = key then some s else table_find key rest

namespace SequenceStorage

/-- Method `SequenceStorage::add`. -/
def add (st : SequenceStorage) (key sub_idx start step : Nat) : SequenceStorage :=
  { seq_table_ := table_modify key (fun s => s.add_subsequence sub_idx start step) st.seq_table_ }

/-- Method `SequenceStorage::get`, returning the copy together with the storage after
the call. -/
def get (st : SequenceStorage) (key : Nat) : Sequence × SequenceStorage :=
  let res : Sequence := {}
  match table_find key st.seq_table_ with
  | some found => (found, st)
  | none => (res, st)

/-- Method `SequenceStorage::remove`. -/
def remove (st : SequenceStorage) (key : Nat) : SequenceStorage :=
  { seq_table_ := st.seq_table_.filter (fun e => e.1 ≠ key) }

/-- Number of entries of `seq_table_`. -/
def size (st : SequenceStorage) : Nat := st.seq_table_.length

end SequenceStorage

/-! ## Library calls used by server.cpp -/

/-- Text of the one-character separator `" "`. -/
def SP : Str := [' ']

/-- Position of the first `ch` in a character list. -/
def index_of (ch : Char) : Str → Option Nat
  | [] => none
  | c :: cs => if c = ch then some 0 else (index_of ch cs).map (· + 1)

/-- Call `sv.find(ch, pos)`; `none` stands for `npos`. -/
def sv_find (sv : Str) (ch : Char) (pos : Nat) : Option Nat :=
  (index_of ch (sv.drop pos)).map (· + pos)

/-- Call `sv.substr(pos, count)`. -/
def sv_substr (sv : Str) (pos count : Nat) : Str := (sv.drop pos).take count

/-- Failures of `std::stoi` and `std::stoull`. -/
inductive ParseError
  | invalid_argument
  | out_of_range
deriving DecidableEq, Repr

deriving instance DecidableEq for Except

/-- C `isspace` in the default locale. -/
def isspace (c : Char) : Bool :=
  c = ' ' ∨ c = '\t' ∨ c = '\n' ∨ c = Char.ofNat 11 ∨ c = Char.ofNat 12 ∨ c = '\r'

/-- C `isdigit`. -/
def isdigit (c : Char) : Bool := 48 ≤ c.toNat ∧ c.toNat ≤ 57

/-- Value of the leading run of decimal digits, continuing from `acc`. -/
def read_digits (acc : Nat) : Str → Nat
  | [] => acc
  | c :: cs => if isdigit c then read_digits (acc * 10 + (c.toNat - 48)) cs else acc

/-- The scan shared by `strtol` and `strtoull` in base 10: leading white space, an
optional sign, then at least one digit; whatever follows the digits is not looked at.
The result is the sign and the magnitude, `none` when no digit is found. -/
def strto_scan (s : Str) : Option (Bool × Nat) :=
  match s.dropWhile isspace with
  | [] => none
  | c :: cs =>
    let neg := decide (c = '-')
    let body := if c = '-' ∨ c = '+' then cs else c :: cs
    match body with
    | [] => none
    | d :: _ => if isdigit d then some (neg, read_digits 0 body) else none

/-- Call `std::stoi(s)`. -/
def stoi (s : Str) : Except ParseError Int :=
  match strto_scan s with
  | none => .error .invalid_argument
  | some (neg, m) =>
    let v : Int := if neg then -(m : Int) else (m : Int)
    if v < INT_MIN ∨ INT_MAX < v then .error .out_of_range else .ok v

/-- Call `std::stoull(s)`; a leading minus sign negates modulo `2 ^ 64`. -/
def stoull (s : Str) : Except ParseError Nat :=
  match strto_scan s with
  | none => .error .invalid_argument
  | some (neg, m) =>
    if UINT64_MAX < m then .error .out_of_range
    else .ok (if neg then (2 ^ 64 - m) % 2 ^ 64 else m)

/-- Conversion of an `int` argument to a `uint` parameter. -/
def int_to_uint (v : Int) : Nat := (v % 2 ^ 32).toNat

/-! ## server.cpp -/

/-- What the surroundings answer during an export: `send_ok k` tells whether the
`k`-th `send` call returns a non-negative value, `running k j` is the value of
`running_.load()` at the `j`-th check of the wait that follows the `k`-th `send`. -/
structure Env where
  send_ok : Nat → Bool
  running : Nat → Nat → Bool

/-- Which of the two handlers `process_client_input` called. -/
inductive Dispatch
  | generate
  | configure
deriving DecidableEq, Repr

/-- States of a session: `CONNECTED` is the receive loop of `client_handler`,
`EXPORTING` the loop of `generate_sequence`, `CLOSED` follows `disconnect`. -/
inductive SessionState
  | CONNECTED
  | EXPORTING
  | CLOSED
deriving DecidableEq, Repr

/-- Result of `recv` in `client_handler`: a negative value (with the value of
`running_` read after it), zero, or received bytes. -/
inductive Recv
  | failed (running : Bool)
  | eof
  | data (buf : Str)

/-- Effect of one `process_client_input` call. -/
structure Outcome where
  storage : SequenceStorage
  sent : List Str
  dispatch : Dispatch
  streamed : Bool
deriving DecidableEq

namespace TCPServer

/-- Method `TCPServer::client_id`. -/
def client_id (client_sock : Int) (client_port : Nat) : Except ParseError Nat :=
  let id_str := to_string_int client_sock ++ to_string client_port
  stoull id_str

/-- The wait inside `generate_sequence`: `cnt` starts at `period_ms` and drops by
`period_ms / 10` after each check of `running_`; the result tells whether every check
found the server running. The first argument bounds the number of rounds. -/
def wait_period (running : Nat → Bool) (slice : Nat) : Nat → Nat → Nat → Bool
  | 0, _, _ => true
  | fuel + 1, cnt, j =>
    if cnt > 0 then
      if !running j then false
      else wait_period running slice fuel (cnt - slice) (j + 1)
    else true

/-- The `for(;;)` loop of `generate_sequence`, from its `k`-th round on, limited to
`fuel` rounds; the result lists the texts handed to successful `send` calls. -/
def generate_loop (env : Env) : Nat → Nat → Sequence → Str → List Str
  | 0, _, _, _ => []
  | fuel + 1, k, seq, seq_str =>
    let seq_str := seq_str ++ ['\n']
    if !env.send_ok k then []
    else
      let seq := seq.update
      let period_ms := 100
      if wait_period (env.running k) (period_ms / 10) period_ms period_ms 0 then
        seq_str :: generate_loop env fuel (k + 1) seq seq.to_str
      else [seq_str]

/-- Method `TCPServer::generate_sequence`: the texts sent, and whether the export loop
was entered. -/
def generate_sequence (env : Env) (fuel : Nat) (st : SequenceStorage) (client_id : Nat) :
    List Str × Bool :=
  let seq := (st.get client_id).1
  let seq_str := seq.to_str
  if seq_str = [] then ([], false)
  else (generate_loop env fuel 0 seq seq_str, true)

/-- Second half of `TCPServer::add_subsequence` (from the opcode check on), applied
to the three texts `seq_cmd[0]`, `seq_cmd[1]`, `seq_cmd[2]`; an exception thrown by
`std::stoi` is caught and leaves the storage as it was. -/
def convert_fields (st : SequenceStorage) (client_id : Nat) (cmd0 cmd1 cmd2 : Str) :
    SequenceStorage :=
  if cmd0.length < 4 ∨ cmd0.take 3 ≠ ['s', 'e', 'q'] then st
  else
    let attempt : Except ParseError SequenceStorage :=
      (stoi (cmd0.drop 3)).bind fun idx_val =>
      (stoi cmd1).bind fun start_val =>
      (stoi cmd2).bind fun step_val =>
        if idx_val < 0 ∨ start_val < 0 ∨ step_val < 0 then .ok st
        else if idx_val = 0 ∨ idx_val > 3 then .ok st
        else .ok (st.add client_id (int_to_uint idx_val) (int_to_uint start_val)
          (int_to_uint step_val))
    match attempt with
    | .ok st' => st'
    | .error _ => st

/-- Method `TCPServer::add_subsequence`: the size check and the split at the first
two spaces, then `convert_fields`. -/
def add_subsequence (st : SequenceStorage) (client_id : Nat) (sv : Str) : SequenceStorage :=
  if sv.length < 8 then st
  else
    match sv_find sv ' ' 0 with
    | none => st
    | some pos0 =>
      let cmd0 := sv_substr sv 0 (pos0 - 0)
      let start_pos := pos0 + 1
      match sv_find sv ' ' start_pos with
      | none => st
      | some pos1 =>
        let cmd1 := sv_substr sv start_pos (pos1 - start_pos)
        let cmd2 := sv.drop (pos1 + 1)
        convert_fields st client_id cmd0 cmd1 cmd2

/-- Method `TCPServer::process_client_input`. -/
def process_client_input (env : Env) (fuel : Nat) (st : SequenceStorage) (client_id : Nat)
    (cmd : Str) : Outcome :=
  let cmd_view :=
    match sv_find cmd '\r' 0 with
    | some pos => cmd.take (cmd.length - (cmd.length - pos))
    | none => cmd
  if cmd_view = ['e', 'x', 'p', 'o', 'r', 't', ' ', 's', 'e', 'q'] then
    let r := generate_sequence env fuel st client_id
    { storage := st, sent := r.1, dispatch := .generate, streamed := r.2 }
  else
    { storage := add_subsequence st client_id cmd_view, sent := [],
      dispatch := .configure, streamed := false }

/-- Storage effect of `TCPServer::disconnect`. -/
def disconnect (st : SequenceStorage) (client_id : Nat) : SequenceStorage :=
  st.remove client_id

/-- One round of the `for(;;)` loop of `TCPServer::client_handler`, driven by the
result of `recv`: the state the session is in afterwards, the storage and the texts
sent. A round that enters the export loop reports `EXPORTING`. -/
def client_handler_step (env : Env) (fuel : Nat) (st : SequenceStorage) (id : Nat) :
    Recv → SessionState × SequenceStorage × List Str
  | .failed running =>
    if !running then (.CLOSED, disconnect st id, [])
    else (.CONNECTED, st, [])
  | .eof => (.CLOSED, disconnect st id, [])
  | .data buf =>
    let r := process_client_input env fuel st id buf
    (if r.streamed then .EXPORTING else .CONNECTED, r.storage, r.sent)

end TCPServer

/-! ## Inputs and forms used in the statements -/

/-- An environment in which every `send` succeeds and the server keeps running. -/
def env_up : Env := { send_ok := fun _ => true, running := fun _ _ => true }

/-- Text of the command `export seq`. -/
def export_cmd : Str := ['e', 'x', 'p', 'o', 'r', 't', ' ', 's', 'e', 'q']

/-- Text of the command `seq<N> <start> <step>` for given field texts. -/
def seq_cmd (n start step : Str) : Str :=
  ['s', 'e', 'q'] ++ n ++ SP ++ start ++ SP ++ step

/-- Texts on which `add_subsequence` acts: at least 8 characters, of the shape
`seq<r> <f1> <f2>` with no space inside `r` and `f1`, where `std::stoi` converts `r`
to 1, 2 or 3 and converts `f1` and `f2` to non-negative values. -/
def lenient_form (v : Str) : Prop :=
  8 ≤ v.length ∧ ∃ r f1 f2 : Str, v = seq_cmd r f1 f2 ∧ ' ' ∉ r ∧ ' ' ∉ f1 ∧
    (∃ n, stoi r = .ok n ∧ 1 ≤ n ∧ n ≤ 3) ∧ (∃ a, stoi f1 = .ok a ∧ 0 ≤ a) ∧
    (∃ b, stoi f2 = .ok b ∧ 0 ≤ b)

/-- The form the specification gives for a configuration command: `seq<N> <start>
<step>` with `N` one of 1, 2, 3 and `start`, `step` non-empty runs of decimal digits. -/
def strict_form (v : Str) : Prop :=
  ∃ (n : Nat) (a b : Str), (n = 1 ∨ n = 2 ∨ n = 3) ∧ a ≠ [] ∧ b ≠ [] ∧
    (∀ x ∈ a, isdigit x = true) ∧ (∀ x ∈ b, isdigit x = true) ∧
    v = seq_cmd (to_string n) a b

/-- The view `process_client_input` dispatches on: the received text cut at its
first carriage return. -/
def cut_at_cr (cmd : Str) : Str := cmd.takeWhile (· ≠ '\r')

/-! ## Theorems -/

theorem SubSequence.update_start (s : SubSequence) : s.update.start_ = s.start_ := by
  unfold SubSequence.update
  dsimp only
  split <;> rfl

theorem SubSequence.update_step (s : SubSequence) : s.update.step_ = s.step_ := by
  unfold SubSequence.update
  dsimp only
  split <;> rfl

theorem SubSequence.update_counter_fit (s : SubSequence)
    (h : s.counter_ + s.step_ ≤ UINT64_MAX) :
    s.update.counter_ = s.counter_ + s.step_ := by
  have hmax : UINT64_MAX = 2 ^ 64 - 1 := rfl
  unfold SubSequence.update
  dsimp only
  rw [if_neg (by omega)]
  exact Nat.mod_eq_of_lt (by omega)

theorem SubSequence.update_counter_reset (s : SubSequence)
    (hc : s.counter_ ≤ UINT64_MAX) (h : UINT64_MAX < s.counter_ + s.step_) :
    s.update.counter_ = s.start_ := by
  unfold SubSequence.update
  dsimp only
  rw [if_pos (by omega)]

theorem SubSequence.iterate_update_fields (start step : Nat) (n : Nat) :
    (SubSequence.update^[n] (SubSequence.new start step)).start_ = start ∧
    (SubSequence.update^[n] (SubSequence.new start step)).step_ = step := by
  induction n with
  | zero => exact ⟨rfl, rfl⟩
  | succ n ih =>
    rw [Function.iterate_succ_apply', SubSequence.update_start, SubSequence.update_step]
    exact ih

theorem SubSequence.iterate_update_counter (start step : Nat) (n : Nat)
    (h : start + n * step ≤ UINT64_MAX) :
    (SubSequence.update^[n] (SubSequence.new start step)).counter_ = start + n * step := by
  induction n with
  | zero => simp [SubSequence.new]
  | succ n ih =>
    have hexp : (n + 1) * step = n * step + step := Nat.succ_mul n step
    have hc := ih (by omega)
    have hf := SubSequence.iterate_update_fields start step n
    rw [Function.iterate_succ_apply', SubSequence.update_counter_fit _ (by rw [hc, hf.2]; omega),
      hc, hf.2]
    omega

/-! ### Decimal text -/

theorem toDigitsCore_eq (n : Nat) : ∀ (fuel : Nat) (acc : List Char), n < fuel →
    Nat.toDigitsCore 10 fuel n acc = Nat.toDigits 10 n ++ acc := by
  induction n using Nat.strong_induction_on with
  | _ n ih =>
    intro fuel acc hf
    obtain ⟨f, rfl⟩ : ∃ f, fuel = f + 1 := ⟨fuel - 1, by omega⟩
    unfold Nat.toDigits
    rw [Nat.toDigitsCore, Nat.toDigitsCore]
    by_cases h0 : n / 10 = 0
    · simp [h0]
    · simp only [h0, if_false]
      have hlt : n / 10 < n := by omega
      rw [ih (n / 10) hlt f _ (by omega), ih (n / 10) hlt n _ hlt]
      simp

theorem to_string_small (n : Nat) (h : n < 10) : to_string n = [Nat.digitChar n] := by
  unfold to_string Nat.toDigits
  rw [Nat.toDigitsCore]
  have h0 : n / 10 = 0 := by omega
  have hm : n % 10 = n := by omega
  simp [h0, hm]

theorem to_string_large (n : Nat) (h : 10 ≤ n) :
    to_string n = to_string (n / 10) ++ [Nat.digitChar (n % 10)] := by
  unfold to_string
  conv_lhs => unfold Nat.toDigits
  rw [Nat.toDigitsCore]
  have h0 : ¬ n / 10 = 0 := by omega
  simp only [h0, if_false]
  exact toDigitsCore_eq (n / 10) n _ (by omega)

theorem isdigit_digitChar (d : Nat) (h : d < 10) : isdigit (Nat.digitChar d) = true := by
  interval_cases d <;> decide

theorem toNat_digitChar (d : Nat) (h : d < 10) : (Nat.digitChar d).toNat - 48 = d := by
  interval_cases d <;> decide

theorem to_string_digits (n : Nat) : ∀ c ∈ to_string n, isdigit c = true := by
  induction n using Nat.strong_induction_on with
  | _ n ih =>
    intro c hc
    by_cases h : n < 10
    · rw [to_string_small n h, List.mem_singleton] at hc
      rw [hc]
      exact isdigit_digitChar n h
    · rw [to_string_large n (by omega), List.mem_append, List.mem_singleton] at hc
      rcases hc with hc | hc
      · exact ih (n / 10) (by omega) c hc
      · rw [hc]
        exact isdigit_digitChar _ (Nat.mod_lt _ (by decide))

theorem to_string_ne_nil (n : Nat) : to_string n ≠ [] := by
  by_cases h : n < 10
  · rw [to_string_small n h]
    exact List.cons_ne_nil _ _
  · rw [to_string_large n (by omega)]
    simp

theorem read_digits_append (ds : Str) (hds : ∀ c ∈ ds, isdigit c = true) :
    ∀ (acc : Nat) (rest : Str),
      read_digits acc (ds ++ rest) = read_digits (read_digits acc ds) rest := by
  induction ds with
  | nil => intro acc rest; rfl
  | cons d ds ih =>
    intro acc rest
    have hd : isdigit d = true := hds d (List.mem_cons_self _ _)
    simp only [List.cons_append, read_digits, hd, if_true]
    exact ih (fun c hc => hds c (List.mem_cons_of_mem _ hc)) _ _

theorem read_digits_acc (ds : Str) (hds : ∀ c ∈ ds, isdigit c = true) :
    ∀ acc : Nat, read_digits acc ds = acc * 10 ^ ds.length + read_digits 0 ds := by
  induction ds with
  | nil => intro acc; simp [read_digits]
  | cons d ds ih =>
    intro acc
    have hd : isdigit d = true := hds d (List.mem_cons_self _ _)
    have hrest : ∀ c ∈ ds, isdigit c = true := fun c hc => hds c (List.mem_cons_of_mem _ hc)
    simp only [read_digits, hd, if_true, List.length_cons]
    rw [ih hrest (acc * 10 + (d.toNat - 48)), ih hrest (0 * 10 + (d.toNat - 48))]
    ring

theorem read_digits_to_string (n : Nat) : read_digits 0 (to_string n) = n := by
  induction n using Nat.strong_induction_on with
  | _ n ih =>
    by_cases h : n < 10
    · rw [to_string_small n h]
      simp [read_digits, isdigit_digitChar n h, toNat_digitChar n h]
    · rw [to_string_large n (by omega), read_digits_append _ (to_string_digits _),
        ih (n / 10) (by omega)]
      have hm : n % 10 < 10 := Nat.mod_lt _ (by decide)
      simp only [read_digits, isdigit_digitChar _ hm, toNat_digitChar _ hm, if_true]
      omega

/-! ### Sequence -/

theorem map_find_assign_same (k : Nat) (v : SubSequence) (l : List (Nat × SubSequence)) :
    map_find k (map_assign k v l) = some v := by
  induction l with
  | nil => simp [map_assign, map_find]
  | cons e rest ih =>
    obtain ⟨k', v'⟩ := e
    unfold map_assign
    by_cases h1 : k < k'
    · simp [h1, map_find]
    · by_cases h2 : k = k'
      · simp [h2, map_find]
      · simp [h1, h2, map_find, ih]

theorem map_find_assign_other (k j : Nat) (v : SubSequence) (l : List (Nat × SubSequence))
    (hj : j ≠ k) : map_find j (map_assign k v l) = map_find j l := by
  induction l with
  | nil => simp [map_assign, map_find, hj]
  | cons e rest ih =>
    obtain ⟨k', v'⟩ := e
    unfold map_assign
    by_cases h1 : k < k'
    · simp [h1, map_find, hj]
    · by_cases h2 : k = k'
      · subst h2
        simp [map_find, hj]
      · simp [h1, h2, map_find, ih]

theorem map_assign_keys (k : Nat) (v : SubSequence) (l : List (Nat × SubSequence)) :
    ∀ j ∈ (map_assign k v l).map Prod.fst, j = k ∨ j ∈ l.map Prod.fst := by
  induction l with
  | nil => intro j hj; simpa [map_assign] using hj
  | cons e rest ih =>
    obtain ⟨k', v'⟩ := e
    intro j hj
    unfold map_assign at hj
    by_cases h1 : k < k'
    · simp only [h1, if_true, List.map_cons, List.mem_cons] at hj ⊢
      tauto
    · by_cases h2 : k = k'
      · subst h2
        simp only [h1, if_true, if_false, List.map_cons, List.mem_cons] at hj ⊢
        tauto
      · simp only [h1, h2, if_false, List.map_cons, List.mem_cons] at hj ⊢
        rcases hj with hj | hj
        · tauto
        · rcases ih j hj with h | h <;> tauto

/-- The keys of `subsequnces_` are strictly ascending. -/
theorem map_assign_sorted (k : Nat) (v : SubSequence) (l : List (Nat × SubSequence))
    (hl : (l.map Prod.fst).Pairwise (· < ·)) :
    ((map_assign k v l).map Prod.fst).Pairwise (· < ·) := by
  induction l with
  | nil => simp [map_assign]
  | cons e rest ih =>
    obtain ⟨k', v'⟩ := e
    rw [List.map_cons, List.pairwise_cons] at hl
    unfold map_assign
    by_cases h1 : k < k'
    · simp only [h1, if_true, List.map_cons, List.pairwise_cons]
      refine ⟨?_, hl.1, hl.2⟩
      intro j hj
      rcases List.mem_cons.mp hj with hj | hj
      · rw [hj]; exact h1
      · exact lt_trans h1 (hl.1 j hj)
    · by_cases h2 : k = k'
      · subst h2
        simp only [h1, if_true, if_false, List.map_cons, List.pairwise_cons]
        exact ⟨hl.1, hl.2⟩
      · simp only [h1, h2, if_false, List.map_cons, List.pairwise_cons]
        refine ⟨?_, ih hl.2⟩
        intro j hj
        rcases map_assign_keys k v rest j hj with h | h
        · rw [h]; omega
        · exact hl.1 j h

theorem Sequence.reachable_sorted (s : Sequence) (h : s.Reachable) :
    (s.subsequnces_.map Prod.fst).Pairwise (· < ·) := by
  induction h with
  | empty => simp
  | add s sub_idx start step _ ih =>
    unfold Sequence.add_subsequence
    split
    · exact ih
    · exact map_assign_sorted _ _ _ ih
  | update s _ ih =>
    unfold Sequence.update
    simpa [List.map_map, Function.comp_def] using ih

theorem fold_pieces (f : Nat × SubSequence → Str) (l : List (Nat × SubSequence)) :
    ∀ init : Str, l.foldl (fun (res : Str) elem => res ++ (f elem ++ SP)) init
      = init ++ (l.map (fun elem => f elem ++ SP)).flatten := by
  induction l with
  | nil => intro init; simp
  | cons e rest ih => intro init; simp [ih]

theorem dropLast_pieces (pieces : List Str) (h : pieces ≠ []) :
    ((pieces.map (fun x => x ++ SP)).flatten).dropLast = List.intercalate SP pieces := by
  induction pieces with
  | nil => exact absurd rfl h
  | cons x rest ih =>
    cases rest with
    | nil => simp [List.intercalate, SP]
    | cons y ys =>
      have hne : ((List.map (fun x => x ++ SP) (y :: ys)).flatten) ≠ [] := by
        simp [SP]
      rw [List.map_cons, List.flatten_cons, List.dropLast_append_of_ne_nil _ hne,
        ih (List.cons_ne_nil _ _)]
      simp [List.intercalate, List.intersperse]

/-- The loop of `to_str` followed by `pop_back` joins the decimal values by one space. -/
theorem Sequence.to_str_eq_intercalate (s : Sequence) :
    s.to_str = List.intercalate SP
      (s.subsequnces_.map (fun elem => to_string elem.2.get_counter)) := by
  unfold Sequence.to_str
  have hf := fold_pieces (fun elem => to_string elem.2.get_counter) s.subsequnces_ []
  simp only [SP, List.nil_append] at hf
  simp only [hf]
  cases hs : s.subsequnces_ with
  | nil => simp [List.intercalate]
  | cons e rest =>
    have hne : (List.map (fun elem : Nat × SubSequence => to_string elem.2.get_counter ++ [' '])
        (e :: rest)).flatten ≠ [] := by simp
    rw [if_pos hne]
    have := dropLast_pieces ((e :: rest).map (fun elem => to_string elem.2.get_counter))
      (by simp)
    simpa [SP, List.map_map, Function.comp_def] using this

theorem filterMap_slots (l : List (Nat × SubSequence))
    (hl : (l.map Prod.fst).Pairwise (· < ·)) (g : SubSequence → Str) :
    (l.map Prod.fst).filterMap (fun k => (map_find k l).map g) = l.map (fun e => g e.2) := by
  induction l with
  | nil => rfl
  | cons e rest ih =>
    obtain ⟨k, v⟩ := e
    rw [List.map_cons, List.pairwise_cons] at hl
    rw [List.map_cons, List.filterMap_cons]
    simp only [map_find, if_true, Option.map_some', List.map_cons]
    congr 1
    rw [← ih hl.2]
    apply List.filterMap_congr
    intro j hj
    have hne : j ≠ k := by have := hl.1 j hj; omega
    simp [hne]

theorem Sequence.render_spec_eq (s : Sequence)
    (hs : (s.subsequnces_.map Prod.fst).Pairwise (· < ·)) :
    s.render_spec = List.intercalate SP
      (s.subsequnces_.map (fun elem => to_string elem.2.get_counter)) := by
  unfold Sequence.render_spec Sequence.slot
  have hnd : (s.subsequnces_.map Prod.fst).Nodup := hs.imp (fun h => Nat.ne_of_lt h)
  have hle : List.Sorted (· ≤ ·) (s.subsequnces_.map Prod.fst) := hs.imp (fun h => Nat.le_of_lt h)
  simp only [hnd.dedup, hle.insertionSort_eq]
  rw [filterMap_slots _ hs]
  rfl

theorem intercalate_ends (pieces : List Str) (hp : ∀ p ∈ pieces, p ≠ [] ∧ ' ' ∉ p)
    (hne : pieces ≠ []) :
    List.intercalate SP pieces ≠ [] ∧
    (List.intercalate SP pieces).head? ≠ some ' ' ∧
    (List.intercalate SP pieces).getLast? ≠ some ' ' := by
  induction pieces with
  | nil => exact absurd rfl hne
  | cons x rest ih =>
    have hx := hp x (List.mem_cons_self _ _)
    obtain ⟨c, cs, rfl⟩ := List.exists_cons_of_ne_nil hx.1
    have hc : c ≠ ' ' := fun h => hx.2 (h ▸ List.mem_cons_self _ _)
    cases rest with
    | nil =>
      refine ⟨by simp [List.intercalate], by simpa [List.intercalate] using hc, ?_⟩
      intro hl
      have hl2 : (c :: cs).getLast? = some ' ' := by simpa [List.intercalate] using hl
      exact hx.2 (List.mem_of_getLast?_eq_some hl2)
    | cons y ys =>
      obtain ⟨h1, _, h3⟩ := ih (fun p hp' => hp p (List.mem_cons_of_mem _ hp'))
        (List.cons_ne_nil _ _)
      have hsplit : List.intercalate SP ((c :: cs) :: y :: ys)
          = (c :: cs) ++ SP ++ List.intercalate SP (y :: ys) := by
        simp [List.intercalate, List.intersperse]
      rw [hsplit]
      refine ⟨by simp, by simpa using hc, ?_⟩
      rw [List.getLast?_append_of_ne_nil _ h1]
      exact h3

theorem space_not_mem_to_string (n : Nat) : ' ' ∉ to_string n := by
  intro h
  have := to_string_digits n _ h
  exact absurd this (by decide)

theorem map_find_some_of_mem (l : List (Nat × SubSequence)) (k : Nat)
    (h : k ∈ l.map Prod.fst) : map_find k l ≠ none := by
  induction l with
  | nil => simp at h
  | cons e rest ih =>
    obtain ⟨k', v'⟩ := e
    unfold map_find
    by_cases hk : k = k'
    · simp [hk]
    · simp only [hk, if_false]
      apply ih
      simpa [hk] using h

/-- A sorted map whose only populated slots are 1 and 3 has exactly these two entries. -/
theorem entries_one_three (l : List (Nat × SubSequence)) (a b : SubSequence)
    (hl : (l.map Prod.fst).Pairwise (· < ·))
    (h1 : map_find 1 l = some a) (h3 : map_find 3 l = some b)
    (hn : ∀ k, k ≠ 1 → k ≠ 3 → map_find k l = none) : l = [(1, a), (3, b)] := by
  have hkeys : ∀ k ∈ l.map Prod.fst, k = 1 ∨ k = 3 := by
    intro k hk
    by_contra hne
    push_neg at hne
    exact map_find_some_of_mem l k hk (hn k hne.1 hne.2)
  match l, hl, h1, h3, hkeys with
  | [], _, h1, _, _ => simp [map_find] at h1
  | [(k, v)], _, h1, h3, _ =>
    simp only [map_find] at h1 h3
    by_cases hk1 : 1 = k
    · subst hk1; simp at h3
    · simp [hk1] at h1
  | (k1, v1) :: (k2, v2) :: rest, hl, h1, h3, hkeys =>
    simp only [List.map_cons, List.pairwise_cons, List.mem_cons] at hl hkeys
    have hk1 := hkeys k1 (Or.inl rfl)
    have hk2 := hkeys k2 (Or.inr (Or.inl rfl))
    have hlt : k1 < k2 := hl.1 k2 (Or.inl rfl)
    have e1 : k1 = 1 := by omega
    have e2 : k2 = 3 := by omega
    subst e1 e2
    have hrest : rest = [] := by
      cases rest with
      | nil => rfl
      | cons e r =>
        exfalso
        have hk3 := hkeys e.1 (Or.inr (Or.inr (by simp)))
        have hgt : 3 < e.1 := hl.2.1 e.1 (by simp)
        omega
    subst hrest
    simp [map_find] at h1 h3
    rw [h1, h3]

/-! ### Searching and splitting -/

theorem index_of_none (ch : Char) (s : Str) (h : ch ∉ s) : index_of ch s = none := by
  induction s with
  | nil => rfl
  | cons c cs ih =>
    have hc : ¬ c = ch := fun e => h (e ▸ List.mem_cons_self _ _)
    simp [index_of, hc, ih (fun hm => h (List.mem_cons_of_mem _ hm))]

theorem index_of_append (ch : Char) (a b : Str) (h : ch ∉ a) :
    index_of ch (a ++ ch :: b) = some a.length := by
  induction a with
  | nil => simp [index_of]
  | cons c cs ih =>
    have hc : ¬ c = ch := fun e => h (e ▸ List.mem_cons_self _ _)
    simp [index_of, hc, ih (fun hm => h (List.mem_cons_of_mem _ hm))]

theorem index_of_cases (ch : Char) (s : Str) :
    (ch ∉ s ∧ index_of ch s = none) ∨
    ∃ a b, s = a ++ ch :: b ∧ ch ∉ a ∧ index_of ch s = some a.length := by
  by_cases h : ch ∈ s
  · right
    obtain ⟨a, b, hs, ha⟩ := List.eq_append_cons_of_mem h
    exact ⟨a, b, hs, ha, hs ▸ index_of_append ch a b ha⟩
  · left
    exact ⟨h, index_of_none ch s h⟩

theorem drop_past (a : Str) (x : Char) (r : Str) : (a ++ x :: r).drop (a.length + 1) = r := by
  induction a with
  | nil => rfl
  | cons c cs ih => simp

theorem cut_at_cr_self (c : Str) (h : '\r' ∉ c) : cut_at_cr c = c := by
  unfold cut_at_cr
  rw [List.takeWhile_eq_self_iff]
  intro x hx
  have : x ≠ '\r' := fun e => h (e ▸ hx)
  simpa using this

theorem cut_at_cr_append (c rest : Str) (h : '\r' ∉ c) : cut_at_cr (c ++ '\r' :: rest) = c := by
  unfold cut_at_cr
  rw [List.takeWhile_append_of_pos]
  · simp
  · intro x hx
    have : x ≠ '\r' := fun e => h (e ▸ hx)
    simpa using this

/-- The `find` and `remove_suffix` calls of `process_client_input` keep the text before
the first carriage return. -/
theorem cut_view (cmd : Str) :
    (match sv_find cmd '\r' 0 with
      | some pos => cmd.take (cmd.length - (cmd.length - pos))
      | none => cmd) = cut_at_cr cmd := by
  unfold sv_find
  rw [List.drop_zero]
  rcases index_of_cases '\r' cmd with ⟨hn, hi⟩ | ⟨a, b, hs, ha, hi⟩
  · rw [hi, cut_at_cr_self cmd hn]
    rfl
  · rw [hi]
    simp only [Option.map_some', Nat.add_zero]
    have hlen : cmd.length - (cmd.length - a.length) = a.length := by
      rw [hs]; simp
    rw [hlen]
    conv_lhs => rw [hs]
    conv_rhs => rw [hs]
    rw [List.take_left' rfl, cut_at_cr_append a b ha]

theorem process_client_input_eq (env : Env) (fuel : Nat) (st : SequenceStorage) (id : Nat)
    (cmd : Str) :
    TCPServer.process_client_input env fuel st id cmd =
      if cut_at_cr cmd = export_cmd then
        { storage := st, sent := (TCPServer.generate_sequence env fuel st id).1,
          dispatch := .generate, streamed := (TCPServer.generate_sequence env fuel st id).2 }
      else
        { storage := TCPServer.add_subsequence st id (cut_at_cr cmd), sent := [],
          dispatch := .configure, streamed := false } := by
  unfold TCPServer.process_client_input
  simp only [cut_view]
  rfl

/-- With at least 8 characters and two spaces, `add_subsequence` converts the text
before the first space, the text between the first two spaces and the remainder. -/
theorem add_subsequence_fields (st : SequenceStorage) (id : Nat) (f0 f1 f2 : Str)
    (h0 : ' ' ∉ f0) (h1 : ' ' ∉ f1) (hlen : 8 ≤ (f0 ++ ' ' :: (f1 ++ ' ' :: f2)).length) :
    TCPServer.add_subsequence st id (f0 ++ ' ' :: (f1 ++ ' ' :: f2))
      = TCPServer.convert_fields st id f0 f1 f2 := by
  unfold TCPServer.add_subsequence
  rw [if_neg (by omega)]
  have e0 : sv_find (f0 ++ ' ' :: (f1 ++ ' ' :: f2)) ' ' 0 = some f0.length := by
    unfold sv_find
    rw [List.drop_zero, index_of_append _ _ _ h0]
    rfl
  have e1 : sv_find (f0 ++ ' ' :: (f1 ++ ' ' :: f2)) ' ' (f0.length + 1)
      = some (f1.length + (f0.length + 1)) := by
    unfold sv_find
    rw [drop_past, index_of_append _ _ _ h1]
    rfl
  simp only [e0, e1]
  have c0 : sv_substr (f0 ++ ' ' :: (f1 ++ ' ' :: f2)) 0 (f0.length - 0) = f0 := by
    unfold sv_substr
    rw [List.drop_zero, Nat.sub_zero, List.take_left' rfl]
  have c1 : sv_substr (f0 ++ ' ' :: (f1 ++ ' ' :: f2)) (f0.length + 1)
      (f1.length + (f0.length + 1) - (f0.length + 1)) = f1 := by
    unfold sv_substr
    rw [drop_past, Nat.add_sub_cancel, List.take_left' rfl]
  have c2 : (f0 ++ ' ' :: (f1 ++ ' ' :: f2)).drop (f1.length + (f0.length + 1) + 1) = f2 := by
    have : f1.length + (f0.length + 1) + 1 = (f0.length + 1) + (f1.length + 1) := by omega
    rw [this, ← List.drop_drop, drop_past, drop_past]
  rw [c0, c1, c2]

/-- Every text either leaves the storage as it was or has the two-space shape. -/
theorem add_subsequence_cases (st : SequenceStorage) (id : Nat) (sv : Str) :
    TCPServer.add_subsequence st id sv = st ∨
    ∃ f0 f1 f2 : Str, sv = f0 ++ ' ' :: (f1 ++ ' ' :: f2) ∧ ' ' ∉ f0 ∧ ' ' ∉ f1 ∧
      8 ≤ sv.length ∧
      TCPServer.add_subsequence st id sv = TCPServer.convert_fields st id f0 f1 f2 := by
  by_cases hlen : sv.length < 8
  · left
    unfold TCPServer.add_subsequence
    rw [if_pos hlen]
  · rcases index_of_cases ' ' sv with ⟨_, hi⟩ | ⟨f0, r, hs, h0, _⟩
    · left
      unfold TCPServer.add_subsequence sv_find
      rw [if_neg hlen, List.drop_zero, hi]
      rfl
    · rcases index_of_cases ' ' r with ⟨_, hi⟩ | ⟨f1, f2, hr, h1, _⟩
      · left
        have e0 : sv_find sv ' ' 0 = some f0.length := by
          unfold sv_find
          rw [List.drop_zero, hs, index_of_append _ _ _ h0]
          rfl
        have e1 : sv_find sv ' ' (f0.length + 1) = none := by
          unfold sv_find
          rw [hs, drop_past, hi]
          rfl
        unfold TCPServer.add_subsequence
        rw [if_neg hlen]
        simp only [e0, e1]
      · right
        subst hr
        subst hs
        exact ⟨f0, f1, f2, rfl, h0, h1, by omega,
          add_subsequence_fields st id f0 f1 f2 h0 h1 (by omega)⟩

/-- Either `convert_fields` leaves the storage as it was, or the opcode and the three
conversions succeeded with an index from 1 to 3 and non-negative values. -/
theorem convert_fields_cases (st : SequenceStorage) (id : Nat) (f0 f1 f2 : Str) :
    TCPServer.convert_fields st id f0 f1 f2 = st ∨
    (4 ≤ f0.length ∧ f0.take 3 = ['s', 'e', 'q'] ∧
      ∃ n a b : Int, stoi (f0.drop 3) = .ok n ∧ stoi f1 = .ok a ∧ stoi f2 = .ok b ∧
        1 ≤ n ∧ n ≤ 3 ∧ 0 ≤ a ∧ 0 ≤ b ∧
        TCPServer.convert_fields st id f0 f1 f2
          = st.add id (int_to_uint n) (int_to_uint a) (int_to_uint b)) := by
  unfold TCPServer.convert_fields
  by_cases hop : f0.length < 4 ∨ f0.take 3 ≠ ['s', 'e', 'q']
  · left
    rw [if_pos hop]
  · rw [if_neg hop]
    push_neg at hop
    cases hn : stoi (f0.drop 3) with
    | error e => left; rfl
    | ok n =>
      cases ha : stoi f1 with
      | error e => left; rfl
      | ok a =>
        cases hb : stoi f2 with
        | error e => left; rfl
        | ok b =>
          simp only [Except.bind]
          by_cases hneg : n < 0 ∨ a < 0 ∨ b < 0
          · left
            rw [if_pos hneg]
          · rw [if_neg hneg]
            by_cases hidx : n = 0 ∨ n > 3
            · left
              rw [if_pos hidx]
            · right
              rw [if_neg hidx]
              push_neg at hneg hidx
              exact ⟨hop.1, hop.2, n, a, b, rfl, rfl, rfl, by omega, by omega, hneg.2.1,
                hneg.2.2, rfl⟩

/-! ### Numeric conversions -/

theorem isdigit_not_space (d : Char) (h : isdigit d = true) : isspace d = false := by
  unfold isdigit at h
  unfold isspace
  have h' : 48 ≤ d.toNat ∧ d.toNat ≤ 57 := by simpa using h
  have hne : ∀ c : Char, (c.toNat < 48 ∨ 57 < c.toNat) → ¬ d = c := by
    intro c hc e
    rw [e] at h'
    omega
  simp [hne ' ' (by decide), hne '\t' (by decide), hne '\n' (by decide),
    hne (Char.ofNat 11) (by decide), hne (Char.ofNat 12) (by decide), hne '\r' (by decide)]

theorem isdigit_not_sign (d : Char) (h : isdigit d = true) : ¬ (d = '-' ∨ d = '+') := by
  unfold isdigit at h
  have h' : 48 ≤ d.toNat ∧ d.toNat ≤ 57 := by simpa using h
  rintro (e | e) <;> rw [e] at h' <;> revert h' <;> decide

theorem not_mem_to_string (n : Nat) (c : Char) (hc : isdigit c = false) : c ∉ to_string n := by
  intro h
  rw [to_string_digits n c h] at hc
  exact absurd hc (by decide)

theorem strto_scan_digits (d : Char) (t : Str) (hd : isdigit d = true) :
    strto_scan (d :: t) = some (false, read_digits 0 (d :: t)) := by
  have hsp := isdigit_not_space d hd
  have hsg := isdigit_not_sign d hd
  have hm : ¬ d = '-' := fun e => hsg (Or.inl e)
  have hp : ¬ d = '+' := fun e => hsg (Or.inr e)
  unfold strto_scan
  simp [List.dropWhile, hsp, hm, hp, hd]

theorem strto_scan_to_string (n : Nat) (rest : Str) (hr : ∀ c ∈ rest, isdigit c = true) :
    strto_scan (to_string n ++ rest)
      = some (false, n * 10 ^ rest.length + read_digits 0 rest) := by
  obtain ⟨d, t, hdt⟩ := List.exists_cons_of_ne_nil (to_string_ne_nil n)
  have hd : isdigit d = true := to_string_digits n d (hdt ▸ List.mem_cons_self _ _)
  have hscan := strto_scan_digits d (t ++ rest) hd
  rw [← List.cons_append, ← hdt] at hscan
  rw [hscan, read_digits_append _ (to_string_digits n), read_digits_to_string,
    read_digits_acc _ hr]

theorem stoi_to_string (n : Nat) (h : (n : Int) ≤ INT_MAX) :
    stoi (to_string n) = .ok (n : Int) := by
  have hs := strto_scan_to_string n [] (by simp)
  simp only [List.append_nil, List.length_nil, pow_zero, Nat.mul_one, read_digits,
    Nat.add_zero] at hs
  unfold stoi
  rw [hs]
  have hmin : INT_MIN = -(2 ^ 31) := rfl
  have hno : ¬ ((n : Int) < INT_MIN ∨ INT_MAX < (n : Int)) := by omega
  simp [hno]

theorem stoi_to_string_big (n : Nat) (h : INT_MAX < (n : Int)) :
    stoi (to_string n) = .error .out_of_range := by
  have hs := strto_scan_to_string n [] (by simp)
  simp only [List.append_nil, List.length_nil, pow_zero, Nat.mul_one, read_digits,
    Nat.add_zero] at hs
  unfold stoi
  rw [hs]
  simp [h]

theorem stoi_minus_to_string (m : Nat) :
    stoi ('-' :: to_string m) = .ok (-(m : Int)) ∨
    stoi ('-' :: to_string m) = .error .out_of_range := by
  obtain ⟨d, t, hdt⟩ := List.exists_cons_of_ne_nil (to_string_ne_nil m)
  have hd : isdigit d = true := to_string_digits m d (hdt ▸ List.mem_cons_self _ _)
  have hval : read_digits 0 (d :: t) = m := by rw [← hdt]; exact read_digits_to_string m
  have hsp : isspace '-' = false := by decide
  have hscan : strto_scan ('-' :: to_string m) = some (true, m) := by
    unfold strto_scan
    rw [hdt]
    simp [List.dropWhile, hsp, hd, hval]
  unfold stoi
  rw [hscan]
  by_cases hr : (-(m : Int)) < INT_MIN ∨ INT_MAX < (-(m : Int))
  · right; simp [hr]
  · left; simp [hr]

/-- Conversion of the text of an integer: the integer itself when it fits in `int`,
otherwise the `out_of_range` failure. -/
theorem stoi_to_string_int (z : Int) :
    stoi (to_string_int z) = .ok z ∨ stoi (to_string_int z) = .error .out_of_range := by
  unfold to_string_int
  by_cases hz : z < 0
  · rw [if_pos hz]
    have := stoi_minus_to_string z.natAbs
    have e : -(z.natAbs : Int) = z := by omega
    rwa [e] at this
  · rw [if_neg hz]
    have e : ((z.toNat : Nat) : Int) = z := by omega
    by_cases hb : (z.toNat : Int) ≤ INT_MAX
    · left
      have := stoi_to_string z.toNat hb
      rwa [e] at this
    · right
      exact stoi_to_string_big z.toNat (by omega)

theorem read_digits_newline (s : Str) : ∀ acc : Nat,
    read_digits acc (s ++ ['\n']) = read_digits acc s := by
  induction s with
  | nil =>
    intro acc
    have : isdigit '\n' = false := by decide
    simp [read_digits, this]
  | cons c cs ih =>
    intro acc
    by_cases hc : isdigit c = true
    · simp [read_digits, hc, ih]
    · simp [read_digits, hc]

theorem strto_scan_newline (f : Str) : strto_scan (f ++ ['\n']) = strto_scan f := by
  have hnl : isspace '\n' = true := by decide
  have hnd : isdigit '\n' = false := by decide
  unfold strto_scan
  rw [List.dropWhile_append]
  cases hdw : f.dropWhile isspace with
  | nil => simp [List.dropWhile, hnl]
  | cons c cs =>
    simp only [List.isEmpty_cons, Bool.false_eq_true, if_false, List.cons_append]
    by_cases hs : c = '-' ∨ c = '+'
    · simp only [hs, if_true]
      cases cs with
      | nil => simp [hnd]
      | cons d t =>
        simp only [List.cons_append]
        have := read_digits_newline (d :: t) 0
        simp only [List.cons_append] at this
        rw [this]
    · simp only [hs, if_false]
      have := read_digits_newline (c :: cs) 0
      simp only [List.cons_append] at this
      rw [this]

theorem stoi_newline (f : Str) : stoi (f ++ ['\n']) = stoi f := by
  unfold stoi
  rw [strto_scan_newline]

theorem stoi_nil : stoi [] = .error .invalid_argument := rfl

theorem stoi_newline_only : stoi ['\n'] = .error .invalid_argument := rfl

theorem int_to_uint_nat (n : Nat) (h : n < 2 ^ 32) : int_to_uint (n : Int) = n := by
  unfold int_to_uint
  omega

theorem to_string_length_le (k : Nat) : ∀ n : Nat, n < 10 ^ (k + 1) →
    (to_string n).length ≤ k + 1 := by
  induction k with
  | zero =>
    intro n hn
    rw [to_string_small n (by simpa using hn)]
    simp
  | succ k ih =>
    intro n hn
    by_cases h : n < 10
    · rw [to_string_small n h]
      simp
    · rw [to_string_large n (by omega), List.length_append, List.length_singleton]
      have : n / 10 < 10 ^ (k + 1) := by
        rw [Nat.div_lt_iff_lt_mul (by decide)]
        rw [pow_succ] at hn
        exact hn
      have := ih (n / 10) this
      omega

/-! ### Storage -/

theorem table_find_modify_absent (key : Nat) (f : Sequence → Sequence)
    (l : List (Nat × Sequence)) (h : table_find key l = none) :
    table_find key (table_modify key f l) = some (f {}) := by
  induction l with
  | nil => simp [table_modify, table_find]
  | cons e rest ih =>
    obtain ⟨k, v⟩ := e
    unfold table_find at h
    by_cases hk : k = key
    · simp [hk] at h
    · simp only [hk, if_false] at h
      simp [table_modify, table_find, hk, ih h]

/-! ### The export loop -/

theorem wait_period_running (running : Nat → Bool) (slice : Nat)
    (h : ∀ j, running j = true) :
    ∀ fuel cnt j, TCPServer.wait_period running slice fuel cnt j = true := by
  intro fuel
  induction fuel with
  | zero => intro cnt j; rfl
  | succ fuel ih =>
    intro cnt j
    unfold TCPServer.wait_period
    split
    · simp [h j, ih]
    · rfl

/-- Every text the export loop sends is the text of the snapshot after as many
`update` calls as texts were sent before it, followed by a line feed. -/
theorem generate_loop_content (env : Env) : ∀ (fuel k0 : Nat) (seq : Sequence) (i : Nat),
    i < (TCPServer.generate_loop env fuel k0 seq seq.to_str).length →
    (TCPServer.generate_loop env fuel k0 seq seq.to_str)[i]?
      = some ((Sequence.update^[i] seq).to_str ++ ['\n']) := by
  intro fuel
  induction fuel with
  | zero => intro k0 seq i hi; simp [TCPServer.generate_loop] at hi
  | succ fuel ih =>
    intro k0 seq i hi
    unfold TCPServer.generate_loop at hi ⊢
    by_cases hs : env.send_ok k0 = true
    · simp only [hs, Bool.not_true, Bool.false_eq_true, if_false] at hi ⊢
      split at hi
      · rename_i hw
        rw [if_pos hw]
        cases i with
        | zero => simp
        | succ i =>
          rw [List.getElem?_cons_succ, Function.iterate_succ_apply]
          exact ih (k0 + 1) seq.update i (by simpa using hi)
      · rename_i hw
        rw [if_neg hw]
        cases i with
        | zero => simp
        | succ i => simp at hi
    · simp [hs] at hi

/-- While `send` succeeds and the server keeps running, the loop keeps sending. -/
theorem generate_loop_length (env : Env) : ∀ (fuel k0 : Nat) (seq : Sequence) (str : Str)
    (m : Nat), m ≤ fuel → (∀ i, i < m → env.send_ok (k0 + i) = true) →
    (∀ i, i + 1 < m → ∀ j, env.running (k0 + i) j = true) →
    m ≤ (TCPServer.generate_loop env fuel k0 seq str).length := by
  intro fuel
  induction fuel with
  | zero => intro k0 seq str m hm _ _; omega
  | succ fuel ih =>
    intro k0 seq str m hm hsend hrun
    cases m with
    | zero => exact Nat.zero_le _
    | succ m =>
      have hs : env.send_ok k0 = true := by simpa using hsend 0 (by omega)
      unfold TCPServer.generate_loop
      simp only [hs, Bool.not_true, Bool.false_eq_true, if_false]
      split
      · rw [List.length_cons]
        have := ih (k0 + 1) seq.update seq.update.to_str m (by omega)
          (fun i hi => by have := hsend (i + 1) (by omega); rwa [← Nat.add_assoc, Nat.add_right_comm] at this)
          (fun i hi j => by have := hrun (i + 1) (by omega) j; rwa [← Nat.add_assoc, Nat.add_right_comm] at this)
        omega
      · rename_i hw
        cases m with
        | zero => simp
        | succ m =>
          exfalso
          apply hw
          exact wait_period_running _ _ (fun j => by simpa using hrun 0 (by omega) j) _ _ _

theorem iterate_update_single (k : Nat) (sub : SubSequence) (i : Nat) :
    Sequence.update^[i] { subsequnces_ := [(k, sub)] }
      = { subsequnces_ := [(k, SubSequence.update^[i] sub)] } := by
  induction i with
  | zero => rfl
  | succ i ih =>
    rw [Function.iterate_succ_apply', Function.iterate_succ_apply', ih]
    rfl

theorem to_str_single (k : Nat) (sub : SubSequence) :
    Sequence.to_str { subsequnces_ := [(k, sub)] } = to_string sub.get_counter := by
  rw [Sequence.to_str_eq_intercalate]
  simp [List.intercalate]

/-! ### Dispatch -/

theorem not_mem_to_string_int (z : Int) (c : Char) (hc : isdigit c = false) (hm : c ≠ '-') :
    c ∉ to_string_int z := by
  unfold to_string_int
  split
  · intro h
    rcases List.mem_cons.mp h with h | h
    · exact hm h
    · exact not_mem_to_string _ c hc h
  · exact not_mem_to_string _ c hc

theorem not_mem_digits (a : Str) (ha : ∀ x ∈ a, isdigit x = true) (c : Char)
    (hc : isdigit c = false) : c ∉ a := by
  intro h
  rw [ha c h] at hc
  exact absurd hc (by decide)

theorem seq_cmd_shape (n a b : Str) :
    seq_cmd n a b = (['s', 'e', 'q'] ++ n) ++ ' ' :: (a ++ ' ' :: b) := by
  simp [seq_cmd, SP]

theorem seq_cmd_ne_export (n a b : Str) : seq_cmd n a b ≠ export_cmd := by
  simp [seq_cmd, export_cmd]

theorem seq_cmd_no_cr (n a b : Str) (hn : '\r' ∉ n) (ha : '\r' ∉ a) (hb : '\r' ∉ b) :
    cut_at_cr (seq_cmd n a b) = seq_cmd n a b := by
  apply cut_at_cr_self
  simp [seq_cmd, SP, hn, ha, hb]

theorem add_subsequence_short (st : SequenceStorage) (id : Nat) (sv : Str)
    (h : sv.length < 8) : TCPServer.add_subsequence st id sv = st := by
  unfold TCPServer.add_subsequence
  rw [if_pos h]

theorem add_subsequence_no_space (st : SequenceStorage) (id : Nat) (sv : Str)
    (h : ' ' ∉ sv) : TCPServer.add_subsequence st id sv = st := by
  unfold TCPServer.add_subsequence sv_find
  rw [List.drop_zero, index_of_none _ _ h]
  split <;> rfl

theorem add_subsequence_one_space (st : SequenceStorage) (id : Nat) (f0 r : Str)
    (h0 : ' ' ∉ f0) (hr : ' ' ∉ r) : TCPServer.add_subsequence st id (f0 ++ ' ' :: r) = st := by
  have e0 : sv_find (f0 ++ ' ' :: r) ' ' 0 = some f0.length := by
    unfold sv_find
    rw [List.drop_zero, index_of_append _ _ _ h0]
    rfl
  have e1 : sv_find (f0 ++ ' ' :: r) ' ' (f0.length + 1) = none := by
    unfold sv_find
    rw [drop_past, index_of_none _ _ hr]
    rfl
  unfold TCPServer.add_subsequence
  simp only [e0, e1]
  split <;> rfl

theorem generate_sequence_empty (env : Env) (fuel : Nat) (st : SequenceStorage) (id : Nat)
    (h : (st.get id).1.to_str = []) :
    TCPServer.generate_sequence env fuel st id = ([], false) := by
  unfold TCPServer.generate_sequence
  simp only [h, if_true]

theorem process_export (env : Env) (fuel : Nat) (st : SequenceStorage) (id : Nat) :
    TCPServer.process_client_input env fuel st id export_cmd =
      { storage := st, sent := (TCPServer.generate_sequence env fuel st id).1,
        dispatch := .generate, streamed := (TCPServer.generate_sequence env fuel st id).2 } := by
  rw [process_client_input_eq]
  have : cut_at_cr export_cmd = export_cmd := by decide
  rw [if_pos this]

/-- A command whose index text is an integer outside 1, 2, 3 leaves the storage as
it was. -/
theorem add_subsequence_bad_index (st : SequenceStorage) (id : Nat) (N : Int) (a b : Str)
    (hN : N ≠ 1 ∧ N ≠ 2 ∧ N ≠ 3) (ha : ' ' ∉ a) :
    TCPServer.add_subsequence st id (seq_cmd (to_string_int N) a b) = st := by
  by_cases hlen : (seq_cmd (to_string_int N) a b).length < 8
  · exact add_subsequence_short st id _ hlen
  · have h0 : ' ' ∉ (['s', 'e', 'q'] ++ to_string_int N) := by
      have := not_mem_to_string_int N ' ' (by decide) (by decide)
      simp [this]
    rw [seq_cmd_shape] at hlen ⊢
    rw [add_subsequence_fields st id _ a b h0 ha (by omega)]
    rcases convert_fields_cases st id (['s', 'e', 'q'] ++ to_string_int N) a b with h | h
    · exact h
    · obtain ⟨_, _, n, _, _, hn, _, _, h1, h3, _⟩ := h
      exfalso
      have hd : (['s', 'e', 'q'] ++ to_string_int N).drop 3 = to_string_int N := rfl
      rw [hd] at hn
      rcases stoi_to_string_int N with e | e
      · rw [e] at hn
        have : N = n := by injection hn
        omega
      · rw [e] at hn
        exact absurd hn (by simp)

theorem to_string_length_pos (n : Nat) : 0 < (to_string n).length :=
  List.length_pos.mpr (to_string_ne_nil n)

/-- A command `seq<N> <start> <step>` with `N` from 1 to 3 and values that fit in
`int` reaches `SequenceStorage::add` with exactly these numbers. -/
theorem process_valid_seq (env : Env) (fuel : Nat) (st : SequenceStorage) (c N start step : Nat)
    (hN : N = 1 ∨ N = 2 ∨ N = 3) (hs : start ≤ 2 ^ 31 - 1) (ht : step ≤ 2 ^ 31 - 1) :
    TCPServer.process_client_input env fuel st c
        (seq_cmd (to_string N) (to_string start) (to_string step))
      = { storage := st.add c N start step, sent := [], dispatch := .configure,
          streamed := false } := by
  have hmax : INT_MAX = 2 ^ 31 - 1 := rfl
  have hcr : ∀ n : Nat, '\r' ∉ to_string n := fun n => not_mem_to_string n '\r' (by decide)
  have hsp : ∀ n : Nat, ' ' ∉ to_string n := fun n => not_mem_to_string n ' ' (by decide)
  rw [process_client_input_eq, seq_cmd_no_cr _ _ _ (hcr _) (hcr _) (hcr _),
    if_neg (seq_cmd_ne_export _ _ _), seq_cmd_shape]
  have h0 : ' ' ∉ (['s', 'e', 'q'] ++ to_string N) := by simp [hsp N]
  have hlen : 8 ≤ ((['s', 'e', 'q'] ++ to_string N)
      ++ ' ' :: (to_string start ++ ' ' :: to_string step)).length := by
    have h1 := to_string_length_pos N
    have h2 := to_string_length_pos start
    have h3 := to_string_length_pos step
    simp only [List.length_append, List.length_cons, List.length_nil]
    omega
  rw [add_subsequence_fields st c _ _ _ h0 (hsp start) hlen]
  unfold TCPServer.convert_fields
  have hop : ¬ ((['s', 'e', 'q'] ++ to_string N).length < 4 ∨
      (['s', 'e', 'q'] ++ to_string N).take 3 ≠ ['s', 'e', 'q']) := by
    have h1 := to_string_length_pos N
    simp only [List.length_append, List.length_cons, List.length_nil]
    intro h
    rcases h with h | h
    · omega
    · exact h rfl
  rw [if_neg hop]
  have hd : (['s', 'e', 'q'] ++ to_string N).drop 3 = to_string N := rfl
  rw [hd, stoi_to_string N (by omega), stoi_to_string start (by omega),
    stoi_to_string step (by omega)]
  simp only [Except.bind]
  have hneg : ¬ ((N : Int) < 0 ∨ (start : Int) < 0 ∨ (step : Int) < 0) := by omega
  have hidx : ¬ ((N : Int) = 0 ∨ (N : Int) > 3) := by omega
  rw [if_neg hneg, if_neg hidx, int_to_uint_nat N (by omega), int_to_uint_nat start (by omega),
    int_to_uint_nat step (by omega)]

theorem get_after_add (st : SequenceStorage) (c N start step : Nat)
    (hc : table_find c st.seq_table_ = none) (hs : start ≠ 0) (ht : step ≠ 0) :
    ((st.add c N start step).get c).1
      = { subsequnces_ := [(N, SubSequence.new start step)] } := by
  unfold SequenceStorage.get SequenceStorage.add
  simp only [table_find_modify_absent c _ st.seq_table_ hc]
  unfold Sequence.add_subsequence
  rw [if_neg (by tauto)]
  rfl

/-- After a first configuration of one slot, `generate_sequence` streams that slot. -/
theorem generate_after_add (env : Env) (fuel : Nat) (st : SequenceStorage)
    (c N start step : Nat) (hc : table_find c st.seq_table_ = none)
    (hs : start ≠ 0) (ht : step ≠ 0) :
    (TCPServer.generate_sequence env fuel (st.add c N start step) c).1
      = TCPServer.generate_loop env fuel 0 { subsequnces_ := [(N, SubSequence.new start step)] }
          (Sequence.to_str { subsequnces_ := [(N, SubSequence.new start step)] }) := by
  unfold TCPServer.generate_sequence
  simp only [get_after_add st c N start step hc hs ht]
  have hne : ¬ Sequence.to_str { subsequnces_ := [(N, SubSequence.new start step)] } = [] := by
    rw [to_str_single]
    exact to_string_ne_nil _
  rw [if_neg hne]

theorem convert_fields_newline (st : SequenceStorage) (id : Nat) (f0 f1 f2 : Str) :
    TCPServer.convert_fields st id f0 f1 (f2 ++ ['\n']) = TCPServer.convert_fields st id f0 f1 f2 := by
  unfold TCPServer.convert_fields
  rw [stoi_newline]

/-- A line feed appended to a text does not change what `add_subsequence` does. -/
theorem add_subsequence_newline (st : SequenceStorage) (id : Nat) (c : Str) :
    TCPServer.add_subsequence st id (c ++ ['\n']) = TCPServer.add_subsequence st id c := by
  have hnl : ¬ ' ' = '\n' := by decide
  rcases index_of_cases ' ' c with ⟨hn, _⟩ | ⟨f0, r, hs, h0, _⟩
  · rw [add_subsequence_no_space st id c hn,
      add_subsequence_no_space st id _ (by simp [hn, hnl])]
  · subst hs
    rcases index_of_cases ' ' r with ⟨hn, _⟩ | ⟨f1, f2, hr, h1, _⟩
    · rw [add_subsequence_one_space st id f0 r h0 hn, List.append_assoc, List.cons_append,
        add_subsequence_one_space st id f0 (r ++ ['\n']) h0 (by simp [hn, hnl])]
    · subst hr
      have hshape : (f0 ++ ' ' :: (f1 ++ ' ' :: f2)) ++ ['\n']
          = f0 ++ ' ' :: (f1 ++ ' ' :: (f2 ++ ['\n'])) := by simp
      have hl1 : ((f0 ++ ' ' :: (f1 ++ ' ' :: f2)) ++ ['\n']).length
          = (f0 ++ ' ' :: (f1 ++ ' ' :: f2)).length + 1 := by
        simp only [List.length_append, List.length_cons, List.length_nil]
      have hl2 : (f0 ++ ' ' :: (f1 ++ ' ' :: f2)).length = f0.length + f1.length + f2.length + 2 := by
        simp only [List.length_append, List.length_cons]
        omega
      by_cases h8 : 8 ≤ (f0 ++ ' ' :: (f1 ++ ' ' :: f2)).length
      · rw [add_subsequence_fields st id f0 f1 f2 h0 h1 h8, hshape,
          add_subsequence_fields st id f0 f1 (f2 ++ ['\n']) h0 h1 (by rw [← hshape, hl1]; omega),
          convert_fields_newline]
      · rw [add_subsequence_short st id (f0 ++ ' ' :: (f1 ++ ' ' :: f2)) (by omega)]
        by_cases h7 : (f0 ++ ' ' :: (f1 ++ ' ' :: f2)).length < 7
        · exact add_subsequence_short st id _ (by rw [hl1]; omega)
        · rw [hshape, add_subsequence_fields st id f0 f1 (f2 ++ ['\n']) h0 h1
            (by rw [← hshape, hl1]; omega)]
          rcases convert_fields_cases st id f0 f1 (f2 ++ ['\n']) with h | h
          · exact h
          · obtain ⟨hf0, _, n, a, b, _, ha, hb, _⟩ := h
            exfalso
            cases f1 with
            | nil => rw [stoi_nil] at ha; exact absurd ha (by simp)
            | cons x xs =>
              have hf2 : f2 = [] := by
                apply List.eq_nil_of_length_eq_zero
                simp only [List.length_cons] at hl2
                omega
              rw [hf2, List.nil_append, stoi_newline_only] at hb
              exact absurd hb (by simp)

/-- C1: a fresh `SubSequence` with nonzero 32-bit `start`, `step` holds
`start + n * step` after `n` calls of `update` whenever that sum fits in 64 bits,
and when the next sum would exceed `2 ^ 64 - 1` the next call sets the counter
to exactly `start`; this reset value coincides with the sum reduced modulo `2 ^ 64`
only when `(n + 1) * step` is `2 ^ 64` itself. -/
theorem C1_update_progression (start step n : Nat)
    (_hs0 : 0 < start) (_hs : start < 2 ^ 32) (_ht0 : 0 < step) (_ht : step < 2 ^ 32)
    (h : start + n * step ≤ 2 ^ 64 - 1) :
    (SubSequence.update^[n] (SubSequence.new start step)).get_counter = start + n * step ∧
    (start + (n + 1) * step > 2 ^ 64 - 1 →
      (SubSequence.update^[n + 1] (SubSequence.new start step)).get_counter = start ∧
      (start = (start + (n + 1) * step) % 2 ^ 64 ↔ (n + 1) * step = 2 ^ 64)) := by
  have hmax : UINT64_MAX = 2 ^ 64 - 1 := rfl
  have hc := SubSequence.iterate_update_counter start step n (by omega)
  have hexp : (n + 1) * step = n * step + step := Nat.succ_mul n step
  refine ⟨hc, fun hov => ⟨?_, ?_⟩⟩
  · have hf := SubSequence.iterate_update_fields start step n
    rw [Function.iterate_succ_apply']
    show (SubSequence.update _).counter_ = start
    rw [SubSequence.update_counter_reset _ (by rw [hc]; omega) (by rw [hc, hf.2]; omega), hf.1]
  · clear hc
    have hw : (start + (n + 1) * step) % 2 ^ 64 = start + (n + 1) * step - 2 ^ 64 := by
      rw [Nat.mod_eq_sub_mod (by omega)]
      exact Nat.mod_eq_of_lt (by omega)
    rw [hw]
    omega

/-- C1 at `start = 1`, `step = 2 ^ 32 - 1`, `n = 2 ^ 32`: the last value that fits is
`2 ^ 64 - 2 ^ 32 + 1`, the next call yields `1`, where the modular sum would be `0`. -/
theorem C1_update_progression_witness :
    ((SubSequence.update^[4294967296] (SubSequence.new 1 4294967295)).get_counter
        = 1 + 4294967296 * 4294967295 ∧
      (SubSequence.update^[4294967296 + 1] (SubSequence.new 1 4294967295)).get_counter = 1) ∧
    (1 + (4294967296 + 1) * 4294967295) % 2 ^ 64 = 0 :=
  have h := C1_update_progression 1 4294967295 4294967296 (by decide) (by decide) (by decide)
    (by decide) (by decide)
  ⟨⟨h.1, (h.2 (by decide)).1⟩, by decide⟩

/-- C3: for every `Sequence` the class can produce, `to_str` equals the text the
specification describes (decimal values of exactly the populated slots, ascending slot
order, joined by single spaces), it neither begins nor ends with a space, it is empty
when no slot is populated, and with only slots 1 and 3 populated it is the value of
slot 1, one space, the value of slot 3. -/
theorem C3_to_str_render (s : Sequence) (h : s.Reachable) :
    s.to_str = s.render_spec ∧
    s.to_str.head? ≠ some ' ' ∧ s.to_str.getLast? ≠ some ' ' ∧
    ((∀ k, s.slot k = none) → s.to_str = []) ∧
    (∀ a b : SubSequence, s.slot 1 = some a → s.slot 3 = some b →
      (∀ k, k ≠ 1 → k ≠ 3 → s.slot k = none) →
      s.to_str = to_string a.get_counter ++ [' '] ++ to_string b.get_counter) := by
  have hs := s.reachable_sorted h
  have hi := s.to_str_eq_intercalate
  refine ⟨by rw [hi, s.render_spec_eq hs], ?_, ?_, ?_, ?_⟩
  · rw [hi]
    cases hl : s.subsequnces_ with
    | nil => simp [List.intercalate]
    | cons e rest =>
      refine (intercalate_ends _ ?_ (by simp)).2.1
      intro p hp
      obtain ⟨x, _, rfl⟩ := List.mem_map.mp hp
      exact ⟨to_string_ne_nil _, space_not_mem_to_string _⟩
  · rw [hi]
    cases hl : s.subsequnces_ with
    | nil => simp [List.intercalate]
    | cons e rest =>
      refine (intercalate_ends _ ?_ (by simp)).2.2
      intro p hp
      obtain ⟨x, _, rfl⟩ := List.mem_map.mp hp
      exact ⟨to_string_ne_nil _, space_not_mem_to_string _⟩
  · intro hnone
    rw [hi]
    cases hl : s.subsequnces_ with
    | nil => simp [List.intercalate]
    | cons e rest =>
      have := hnone e.1
      simp [Sequence.slot, hl, map_find] at this
  · intro a b h1 h3 hn
    rw [hi, entries_one_three s.subsequnces_ a b hs h1 h3 hn]
    simp [List.intercalate, List.intersperse, SP]

/-- C3 at the `Sequence` built by `add_subsequence 3 7 2` then `add_subsequence 1 10 5`:
slots 1 and 3 are populated and the text is `10 7`. -/
theorem C3_to_str_render_witness :
    (((({} : Sequence).add_subsequence 3 7 2).add_subsequence 1 10 5).to_str
        = ['1', '0', ' ', '7']) ∧
    ((({} : Sequence).add_subsequence 3 7 2).add_subsequence 1 10 5).to_str
        = ((({} : Sequence).add_subsequence 3 7 2).add_subsequence 1 10 5).render_spec ∧
    ((({} : Sequence).add_subsequence 3 7 2).add_subsequence 1 10 5).to_str
        = to_string (SubSequence.new 10 5).get_counter ++ [' ']
          ++ to_string (SubSequence.new 7 2).get_counter :=
  have hr : ((({} : Sequence).add_subsequence 3 7 2).add_subsequence 1 10 5).Reachable :=
    Sequence.Reachable.add _ 1 10 5 (Sequence.Reachable.add _ 3 7 2 Sequence.Reachable.empty)
  have hc := C3_to_str_render _ hr
  ⟨by decide, hc.1,
    hc.2.2.2.2 (SubSequence.new 10 5) (SubSequence.new 7 2) (by decide) (by decide)
      (by
        intro k hk1 hk3
        show map_find k [(1, SubSequence.new 10 5), (3, SubSequence.new 7 2)] = none
        have h1 : ¬ k = 1 := hk1
        have h3 : ¬ k = 3 := hk3
        simp [map_find, h1, h3])⟩

/-- C4, as stated, fails: `add_subsequence` with slot index 9 and nonzero `start`,
`step` changes an empty `Sequence`, whose text becomes `1`. -/
theorem C4_counterexample :
    (9 ≠ 1 ∧ 9 ≠ 2 ∧ 9 ≠ 3) ∧
    ({} : Sequence).add_subsequence 9 1 1 ≠ {} ∧
    (({} : Sequence).add_subsequence 9 1 1).slot 9 = some (SubSequence.new 1 1) ∧
    (({} : Sequence).add_subsequence 9 1 1).to_str = ['1'] := by
  decide

/-- C4, amended: `Sequence::add_subsequence` leaves the `Sequence` unchanged when
`start = 0` or `step = 0`; otherwise, for every slot index (inside `{1,2,3}` or not),
the result has at that slot a `SubSequence` with the given `start` and `step` and
counter `start`, and every other slot is as before. -/
theorem C4_add_subsequence_slots (s : Sequence) (index start step : Nat) :
    (start = 0 ∨ step = 0 → s.add_subsequence index start step = s) ∧
    (start ≠ 0 → step ≠ 0 →
      (s.add_subsequence index start step).slot index
        = some { start_ := start, step_ := step, counter_ := start } ∧
      ∀ j, j ≠ index → (s.add_subsequence index start step).slot j = s.slot j) := by
  refine ⟨fun h => ?_, fun h1 h2 => ?_⟩
  · unfold Sequence.add_subsequence
    rw [if_pos h]
  · have hn : ¬ (start = 0 ∨ step = 0) := by tauto
    unfold Sequence.add_subsequence Sequence.slot
    rw [if_neg hn]
    exact ⟨map_find_assign_same _ _ _, fun j hj => map_find_assign_other _ _ _ _ hj⟩

/-- C4 amended, at a `Sequence` holding slot 2: a zero step changes nothing, and
`add_subsequence 2 4 6` replaces slot 2 and keeps slot 1. -/
theorem C4_add_subsequence_slots_witness :
    ((({} : Sequence).add_subsequence 1 5 5).add_subsequence 2 9 9).add_subsequence 2 4 0
      = (({} : Sequence).add_subsequence 1 5 5).add_subsequence 2 9 9 ∧
    ((((({} : Sequence).add_subsequence 1 5 5).add_subsequence 2 9 9).add_subsequence 2 4 6).slot 2
      = some { start_ := 4, step_ := 6, counter_ := 4 }) ∧
    (((({} : Sequence).add_subsequence 1 5 5).add_subsequence 2 9 9).add_subsequence 2 4 6).slot 1
      = some { start_ := 5, step_ := 5, counter_ := 5 } :=
  ⟨(C4_add_subsequence_slots _ 2 4 0).1 (Or.inr rfl),
    ((C4_add_subsequence_slots ((({} : Sequence).add_subsequence 1 5 5).add_subsequence 2 9 9)
      2 4 6).2 (by decide) (by decide)).1,
    by decide⟩

/-- C8: for a client without an entry, `SequenceStorage::get` returns the empty
`Sequence`, whose text is empty, and the storage after the call is the storage before
it: still no entry for the client, same number of entries. -/
theorem C8_get_absent (st : SequenceStorage) (c : Nat)
    (h : table_find c st.seq_table_ = none) :
    (st.get c).1 = {} ∧ (st.get c).1.to_str = [] ∧ (st.get c).2 = st ∧
    table_find c (st.get c).2.seq_table_ = none ∧ (st.get c).2.size = st.size := by
  have hg : st.get c = ({}, st) := by
    unfold SequenceStorage.get
    rw [h]
  rw [hg]
  exact ⟨rfl, rfl, rfl, h, rfl⟩

/-- C8 at a storage that holds client 5 only, read for client 7. -/
theorem C8_get_absent_witness :
    ((({} : SequenceStorage).add 5 1 10 5).get 7).1 = {} ∧
    ((({} : SequenceStorage).add 5 1 10 5).get 7).1.to_str = [] ∧
    ((({} : SequenceStorage).add 5 1 10 5).get 7).2 = ({} : SequenceStorage).add 5 1 10 5 ∧
    table_find 7 ((({} : SequenceStorage).add 5 1 10 5).get 7).2.seq_table_ = none ∧
    ((({} : SequenceStorage).add 5 1 10 5).get 7).2.size
      = (({} : SequenceStorage).add 5 1 10 5).size :=
  C8_get_absent (({} : SequenceStorage).add 5 1 10 5) 7 (by decide)

/-- C9: for a non-negative `int` descriptor and a 16-bit port, `client_id` succeeds
with `sock * 10 ^ d + port`, `d` being the number of decimal digits of the port; the
pairs (1, 23) and (12, 3) both receive 123. -/
theorem C9_client_id (sock : Int) (port : Nat) (h0 : 0 ≤ sock) (h1 : sock < 2 ^ 31)
    (hp : port < 2 ^ 16) :
    TCPServer.client_id sock port
      = .ok (sock.toNat * 10 ^ (to_string port).length + port) ∧
    TCPServer.client_id 1 23 = .ok 123 ∧ TCPServer.client_id 12 3 = .ok 123 ∧
    ((1 : Int), 23) ≠ ((12 : Int), 3) := by
  refine ⟨?_, by decide, by decide, by decide⟩
  unfold TCPServer.client_id to_string_int
  rw [if_neg (by omega)]
  unfold stoull
  dsimp only
  rw [strto_scan_to_string sock.toNat (to_string port) (to_string_digits port),
    read_digits_to_string]
  have hlen : (to_string port).length ≤ 5 := to_string_length_le 4 port (by omega)
  have hpow : 10 ^ (to_string port).length ≤ 10 ^ 5 := Nat.pow_le_pow_right (by decide) hlen
  have hs : sock.toNat < 2 ^ 31 := by omega
  have hmul : sock.toNat * 10 ^ (to_string port).length ≤ 2 ^ 31 * 10 ^ 5 :=
    Nat.mul_le_mul (Nat.le_of_lt hs) hpow
  have hmax : UINT64_MAX = 2 ^ 64 - 1 := rfl
  have hno : ¬ UINT64_MAX < sock.toNat * 10 ^ (to_string port).length + port := by omega
  simp [hno]

/-- C9 at descriptor 12 and port 3: the identity is `12 * 10 ^ 1 + 3`. -/
theorem C9_client_id_witness :
    (TCPServer.client_id 12 3
      = .ok ((12 : Int).toNat * 10 ^ (to_string 3).length + 3) ∧
    TCPServer.client_id 1 23 = .ok 123 ∧ TCPServer.client_id 12 3 = .ok 123 ∧
    ((1 : Int), 23) ≠ ((12 : Int), 3)) ∧
    (12 : Int).toNat * 10 ^ (to_string 3).length + 3 = 123 :=
  ⟨C9_client_id 12 3 (by decide) (by decide) (by decide), by decide⟩

/-- C10, as stated, fails: with an empty storage, `export seq` received by client 0
sends nothing and leaves the session in `CONNECTED`, not `CLOSED`. -/
theorem C10_counterexample :
    (({} : SequenceStorage).get 0).1.to_str = [] ∧
    TCPServer.client_handler_step env_up 1 {} 0 (.data export_cmd)
      = (SessionState.CONNECTED, {}, []) ∧
    (TCPServer.client_handler_step env_up 1 {} 0 (.data export_cmd)).1 ≠ SessionState.CLOSED := by
  decide

/-- C10, amended: for every client whose snapshot has an empty text, receiving
`export seq` sends no data, leaves the storage as it was, and the session stays in
`CONNECTED`: `generate_sequence` returns and the receive loop goes on. -/
theorem C10_empty_export_stays_connected (env : Env) (fuel : Nat) (st : SequenceStorage)
    (id : Nat) (h : (st.get id).1.to_str = []) :
    TCPServer.client_handler_step env fuel st id (.data export_cmd)
      = (SessionState.CONNECTED, st, []) := by
  unfold TCPServer.client_handler_step
  simp only [process_export, generate_sequence_empty env fuel st id h]
  rfl

/-- C10 amended, at a storage that holds client 5 only, for client 7. -/
theorem C10_empty_export_stays_connected_witness :
    TCPServer.client_handler_step env_up 4 (({} : SequenceStorage).add 5 1 10 5) 7
      (.data export_cmd)
      = (SessionState.CONNECTED, ({} : SequenceStorage).add 5 1 10 5, []) :=
  C10_empty_export_stays_connected env_up 4 (({} : SequenceStorage).add 5 1 10 5) 7 (by decide)

/-- C6: a command `seq<N> <a> <b>` whose `N` is an integer outside 1, 2, 3, with `a`
and `b` runs of decimal digits, leaves the storage as it was and sends nothing; for a
client whose snapshot has an empty text, after `seq9 1 1` the snapshot text is still
empty and a following `export seq` sends nothing. -/
theorem C6_invalid_slot_ignored (env : Env) (fuel : Nat) (st : SequenceStorage) (c : Nat)
    (N : Int) (a b : Str) (hN : N ≠ 1 ∧ N ≠ 2 ∧ N ≠ 3)
    (ha : ∀ x ∈ a, isdigit x = true) (hb : ∀ x ∈ b, isdigit x = true) :
    (TCPServer.process_client_input env fuel st c (seq_cmd (to_string_int N) a b)).storage = st ∧
    (TCPServer.process_client_input env fuel st c (seq_cmd (to_string_int N) a b)).sent = [] ∧
    ((st.get c).1.to_str = [] → ∀ (env2 : Env) (fuel2 : Nat),
      (((TCPServer.process_client_input env fuel st c
          ("seq9 1 1".toList)).storage.get c).1.to_str = []) ∧
      (TCPServer.process_client_input env fuel st c ("seq9 1 1".toList)).sent = [] ∧
      (TCPServer.process_client_input env2 fuel2
        (TCPServer.process_client_input env fuel st c ("seq9 1 1".toList)).storage
        c export_cmd).sent = []) := by
  have key : ∀ (M : Int) (x y : Str), (M ≠ 1 ∧ M ≠ 2 ∧ M ≠ 3) →
      (∀ z ∈ x, isdigit z = true) → (∀ z ∈ y, isdigit z = true) →
      TCPServer.process_client_input env fuel st c (seq_cmd (to_string_int M) x y)
        = { storage := st, sent := [], dispatch := .configure, streamed := false } := by
    intro M x y hM hx hy
    rw [process_client_input_eq,
      seq_cmd_no_cr _ _ _ (not_mem_to_string_int M '\r' (by decide) (by decide))
        (not_mem_digits x hx '\r' (by decide)) (not_mem_digits y hy '\r' (by decide)),
      if_neg (seq_cmd_ne_export _ _ _),
      add_subsequence_bad_index st c M x y hM (not_mem_digits x hx ' ' (by decide))]
  refine ⟨by rw [key N a b hN ha hb], by rw [key N a b hN ha hb], fun hempty env2 fuel2 => ?_⟩
  have h9 : "seq9 1 1".toList = seq_cmd (to_string_int 9) ['1'] ['1'] := by decide
  rw [h9, key 9 ['1'] ['1'] (by decide) (by decide) (by decide)]
  refine ⟨hempty, rfl, ?_⟩
  rw [process_export, generate_sequence_empty env2 fuel2 st c hempty]

/-- C6 at a storage that holds client 5 only, for client 7 and the command `seq0 4 2`. -/
theorem C6_invalid_slot_ignored_witness :
    (TCPServer.process_client_input env_up 3 (({} : SequenceStorage).add 5 1 10 5) 7
      (seq_cmd (to_string_int 0) ['4'] ['2'])).storage = ({} : SequenceStorage).add 5 1 10 5 ∧
    (TCPServer.process_client_input env_up 3 (({} : SequenceStorage).add 5 1 10 5) 7
      ("seq9 1 1".toList)).sent = [] ∧
    (TCPServer.process_client_input env_up 3
      (TCPServer.process_client_input env_up 3 (({} : SequenceStorage).add 5 1 10 5) 7
        ("seq9 1 1".toList)).storage 7 export_cmd).sent = [] :=
  have h := C6_invalid_slot_ignored env_up 3 (({} : SequenceStorage).add 5 1 10 5) 7 0
    ['4'] ['2'] (by decide) (by decide) (by decide)
  ⟨h.1, (h.2.2 (by decide) env_up 3).2.1, (h.2.2 (by decide) env_up 3).2.2⟩

/-- C2: for a client without an entry, after the command `seq<N> <start> <step>`
(`N` in 1..3, `1 ≤ start, step ≤ 2 ^ 31 - 1`, fields in decimal), which sends nothing,
the command `export seq` makes the `k`-th text sent, for every `k` with
`start + k * step ≤ 2 ^ 64 - 1`, the decimal text of `start + k * step` followed by a
line feed; the `k`-th text is sent whenever the loop runs more than `k` rounds, the
first `k + 1` calls of `send` succeed and the server is running in the waits between. -/
theorem C2_export_stream (st : SequenceStorage) (c N start step : Nat)
    (hc : table_find c st.seq_table_ = none) (hN : N = 1 ∨ N = 2 ∨ N = 3)
    (hs1 : 1 ≤ start) (hs2 : start ≤ 2 ^ 31 - 1) (ht1 : 1 ≤ step) (ht2 : step ≤ 2 ^ 31 - 1)
    (env0 : Env) (fuel0 : Nat) :
    (TCPServer.process_client_input env0 fuel0 st c
      (seq_cmd (to_string N) (to_string start) (to_string step))).sent = [] ∧
    ∀ (env : Env) (fuel k : Nat), start + k * step ≤ 2 ^ 64 - 1 →
      (k < (TCPServer.process_client_input env fuel
            (TCPServer.process_client_input env0 fuel0 st c
              (seq_cmd (to_string N) (to_string start) (to_string step))).storage
            c export_cmd).sent.length →
        (TCPServer.process_client_input env fuel
            (TCPServer.process_client_input env0 fuel0 st c
              (seq_cmd (to_string N) (to_string start) (to_string step))).storage
            c export_cmd).sent[k]?
          = some (to_string (start + k * step) ++ ['\n'])) ∧
      (k < fuel → (∀ i, i ≤ k → env.send_ok i = true) →
        (∀ i, i < k → ∀ j, env.running i j = true) →
        k < (TCPServer.process_client_input env fuel
            (TCPServer.process_client_input env0 fuel0 st c
              (seq_cmd (to_string N) (to_string start) (to_string step))).storage
            c export_cmd).sent.length) := by
  rw [process_valid_seq env0 fuel0 st c N start step hN hs2 ht2]
  refine ⟨rfl, fun env fuel k hk => ?_⟩
  simp only [process_export]
  rw [generate_after_add env fuel st c N start step hc (by omega) (by omega)]
  refine ⟨fun hlt => ?_, fun hf hsend hrun => ?_⟩
  · rw [generate_loop_content env fuel 0 _ k hlt, iterate_update_single, to_str_single]
    have hmax : UINT64_MAX = 2 ^ 64 - 1 := rfl
    show some (to_string (SubSequence.update^[k] (SubSequence.new start step)).counter_ ++ ['\n'])
      = _
    rw [SubSequence.iterate_update_counter start step k (by omega)]
  · have := generate_loop_length env fuel 0 { subsequnces_ := [(N, SubSequence.new start step)] }
      (Sequence.to_str { subsequnces_ := [(N, SubSequence.new start step)] }) (k + 1) (by omega)
      (fun i hi => by rw [Nat.zero_add]; exact hsend i (by omega))
      (fun i hi j => by rw [Nat.zero_add]; exact hrun i (by omega) j)
    omega

/-- C2 for client 0 on an empty storage: `seq1 10 5` then `export seq`, three rounds,
sends `10`, `15`, `20`, each followed by a line feed, in that order. -/
theorem C2_export_stream_witness :
    (TCPServer.process_client_input env_up 3
        (TCPServer.process_client_input env_up 0 {} 0 ("seq1 10 5".toList)).storage
        0 ("export seq".toList)).sent
      = ["10\n".toList, "15\n".toList, "20\n".toList] ∧
    (TCPServer.process_client_input env_up 3
        (TCPServer.process_client_input env_up 0 {} 0
          (seq_cmd (to_string 1) (to_string 10) (to_string 5))).storage
        0 export_cmd).sent[2]?
      = some (to_string (10 + 2 * 5) ++ ['\n']) :=
  have h := (C2_export_stream {} 0 1 10 5 (by decide) (by decide) (by decide) (by decide)
    (by decide) (by decide) env_up 0).2 env_up 3 2 (by decide)
  ⟨by decide, h.1 (h.2 (by decide) (fun _ _ => rfl) (fun _ _ _ => rfl))⟩

/-- C5, as stated, fails: `seq1 10 5x` is neither `export seq` nor of the form
`seq<N> <start> <step>` with digit-only fields, yet it configures slot 1 of client 7
with start 10 and step 5. -/
theorem C5_counterexample :
    ("seq1 10 5x".toList) ≠ export_cmd ∧ ¬ strict_form ("seq1 10 5x".toList) ∧
    (TCPServer.process_client_input env_up 0 {} 7 ("seq1 10 5x".toList)).storage
      = ({} : SequenceStorage).add 7 1 10 5 ∧
    (TCPServer.process_client_input env_up 0 {} 7 ("seq1 10 5x".toList)).storage ≠ {} := by
  refine ⟨by decide, ?_, by decide, by decide⟩
  rintro ⟨n, a, b, _, _, hb, _, hdb, he⟩
  have hlast : ("seq1 10 5x".toList).getLast? = some 'x' := by decide
  rw [he, seq_cmd, List.getLast?_append_of_ne_nil _ hb] at hlast
  have := hdb 'x' (List.mem_of_getLast?_eq_some hlast)
  exact absurd this (by decide)

/-- C5, amended: every received text whose part before the first carriage return is
neither `export seq` nor a text of at least 8 characters of the shape
`seq<r> <f1> <f2>` (no space in `r` and `f1`) where `std::stoi` reads `r` as 1, 2 or 3
and reads `f1` and `f2` as non-negative values, leaves the storage as it was and sends
nothing. (`std::stoi` skips leading white space, takes a sign and stops at the first
character that is not a digit.) -/
theorem C5_malformed_discarded (env : Env) (fuel : Nat) (st : SequenceStorage) (c : Nat)
    (cmd : Str) (hx : cut_at_cr cmd ≠ export_cmd) (hl : ¬ lenient_form (cut_at_cr cmd)) :
    (TCPServer.process_client_input env fuel st c cmd).storage = st ∧
    (TCPServer.process_client_input env fuel st c cmd).sent = [] := by
  rw [process_client_input_eq, if_neg hx]
  refine ⟨?_, rfl⟩
  show TCPServer.add_subsequence st c (cut_at_cr cmd) = st
  rcases add_subsequence_cases st c (cut_at_cr cmd) with h | ⟨f0, f1, f2, hv, h0, h1, h8, he⟩
  · exact h
  · rw [he]
    rcases convert_fields_cases st c f0 f1 f2 with h | ⟨_, hseq, n, a, b, hn, ha, hb, hn1, hn3, ha0, hb0, _⟩
    · exact h
    · exfalso
      apply hl
      have hf0 : f0 = ['s', 'e', 'q'] ++ f0.drop 3 := by
        conv_lhs => rw [← List.take_append_drop 3 f0, hseq]
      refine ⟨h8, f0.drop 3, f1, f2, ?_, fun hm => h0 (List.mem_of_mem_drop hm), h1,
        ⟨n, hn, hn1, hn3⟩, ⟨a, ha, ha0⟩, ⟨b, hb, hb0⟩⟩
      rw [hv, seq_cmd_shape, ← hf0]

/-- C5 amended, at the 7-character text `seq1 10` for client 7 on a storage that holds
client 5. -/
theorem C5_malformed_discarded_witness :
    (TCPServer.process_client_input env_up 2 (({} : SequenceStorage).add 5 1 10 5) 7
      ("seq1 10".toList)).storage = ({} : SequenceStorage).add 5 1 10 5 ∧
    (TCPServer.process_client_input env_up 2 (({} : SequenceStorage).add 5 1 10 5) 7
      ("seq1 10".toList)).sent = [] :=
  C5_malformed_discarded env_up 2 (({} : SequenceStorage).add 5 1 10 5) 7 ("seq1 10".toList)
    (by decide) (fun h => absurd h.1 (by decide))

/-- C7, as stated, fails: for client 7 configured with `seq1 10 5`, the text
`export seq` starts the export and sends `10`, while `export seq` followed by a lone
line feed is taken as a configuration attempt and sends nothing. -/
theorem C7_counterexample :
    '\r' ∉ export_cmd ∧ '\n' ∉ export_cmd ∧
    (TCPServer.process_client_input env_up 1 (({} : SequenceStorage).add 7 1 10 5) 7
      export_cmd).dispatch = Dispatch.generate ∧
    (TCPServer.process_client_input env_up 1 (({} : SequenceStorage).add 7 1 10 5) 7
      export_cmd).sent = ["10\n".toList] ∧
    (TCPServer.process_client_input env_up 1 (({} : SequenceStorage).add 7 1 10 5) 7
      (export_cmd ++ ['\n'])).dispatch = Dispatch.configure ∧
    (TCPServer.process_client_input env_up 1 (({} : SequenceStorage).add 7 1 10 5) 7
      (export_cmd ++ ['\n'])).sent = [] := by
  decide

/-- C7, amended: for every text `c` without carriage return and line feed,
`process_client_input` has the same effect on `c` followed by CR LF as on `c`; it has
the same effect on `c` followed by a lone line feed as on `c` unless `c` is
`export seq`, and `export seq` followed by a lone line feed is treated as a
configuration attempt that leaves the storage as it was and sends nothing. -/
theorem C7_line_terminator (env : Env) (fuel : Nat) (st : SequenceStorage) (id : Nat)
    (c : Str) (hcr : '\r' ∉ c) (_hlf : '\n' ∉ c) :
    TCPServer.process_client_input env fuel st id (c ++ ['\r', '\n'])
      = TCPServer.process_client_input env fuel st id c ∧
    (c ≠ export_cmd →
      TCPServer.process_client_input env fuel st id (c ++ ['\n'])
        = TCPServer.process_client_input env fuel st id c) ∧
    (c = export_cmd →
      TCPServer.process_client_input env fuel st id (c ++ ['\n'])
        = { storage := st, sent := [], dispatch := .configure, streamed := false }) := by
  have hview : cut_at_cr (c ++ ['\n']) = c ++ ['\n'] := by
    apply cut_at_cr_self
    have : ¬ '\r' = '\n' := by decide
    simp [hcr, this]
  have hne : c ++ ['\n'] ≠ export_cmd := by
    intro h
    have hm : '\n' ∈ c ++ ['\n'] := by simp
    rw [h] at hm
    exact absurd hm (by decide)
  refine ⟨?_, fun hc => ?_, fun hc => ?_⟩
  · rw [process_client_input_eq, process_client_input_eq, cut_at_cr_append c ['\n'] hcr,
      cut_at_cr_self c hcr]
  · rw [process_client_input_eq, process_client_input_eq, hview, cut_at_cr_self c hcr,
      if_neg hne, if_neg hc, add_subsequence_newline]
  · rw [process_client_input_eq, hview, if_neg hne, add_subsequence_newline, hc]
    have : TCPServer.add_subsequence st id export_cmd = st :=
      add_subsequence_one_space st id ['e', 'x', 'p', 'o', 'r', 't'] ['s', 'e', 'q']
        (by decide) (by decide)
    rw [this]

/-- C7 amended, at the text `seq2 7 3` for client 7 on an empty storage. -/
theorem C7_line_terminator_witness :
    TCPServer.process_client_input env_up 1 {} 7 ("seq2 7 3".toList ++ ['\r', '\n'])
      = TCPServer.process_client_input env_up 1 {} 7 ("seq2 7 3".toList) ∧
    TCPServer.process_client_input env_up 1 {} 7 ("seq2 7 3".toList ++ ['\n'])
      = TCPServer.process_client_input env_up 1 {} 7 ("seq2 7 3".toList) ∧
    (TCPServer.process_client_input env_up 1 {} 7 ("seq2 7 3".toList)).storage
      = ({} : SequenceStorage).add 7 2 7 3 :=
  have h := C7_line_terminator env_up 1 {} 7 ("seq2 7 3".toList) (by decide) (by decide)
  ⟨h.1, h.2.1 (by decide), by decide⟩
